import Mathlib

/-!
Verification of the marten HTTP framework core (router.go, group.go, app.go,
the middleware Chain) against its natural-language specification.

The Go source is shallowly embedded: the radix-tree node, registration
(Router.Handle with findOrCreateWithConflictCheck), lookup, the
trailing-slash policy (lookupWithTrailingSlash) and the dispatcher branches
of App.ServeHTTP become pure Lean functions.  Handlers and middleware are
opaque Go function values; they are represented by Nat identifiers wherever
only their identity matters, and by actual Lean functions where the claims
concern middleware composition (Chain, app.go lines 91-99).

Go map semantics are modelled by association lists: a write m[k] = v replaces
the first binding of k in place (or appends a fresh one), and iteration
(for m := range handlers) enumerates the list in that order.  Go randomizes
map iteration order; the model fixes insertion order, which is one of the
admissible orders, and no theorem below depends on more than that.
-/

namespace Marten

/-- Parameter bindings, modelling the Go map[string]string passed to lookup. -/
abbrev Params := List (String × String)

/-- Go map write m[k] = v on an association list: replace the first binding
of k in place, otherwise append. -/
def upsert (ps : Params) (k v : String) : Params :=
  match ps with
  | [] => [(k, v)]
  | (k0, v0) :: rest => if k0 = k then (k, v) :: rest else (k0, v0) :: upsert rest k v

/-- Go map read on an association list (first binding wins). -/
def lookupAssoc (ps : List (String × Nat)) (k : String) : Option Nat :=
  match ps with
  | [] => none
  | (k0, v0) :: rest => if k0 = k then some v0 else lookupAssoc rest k

/-- Association-list write for the handlers map (method to handler id),
same semantics as upsert. -/
def upsertH (hs : List (String × Nat)) (k : String) (v : Nat) : List (String × Nat) :=
  match hs with
  | [] => [(k, v)]
  | (k0, v0) :: rest => if k0 = k then (k, v) :: rest else (k0, v0) :: upsertH rest k v

/-- Remove every leading and trailing occurrence of a character, the
semantics of Go strings.Trim(path, sep) for a one-character cutset.
The back end is trimmed first, then the front; the composite is the same
function either way. -/
def trimChar (c : Char) (s : List Char) : List Char :=
  ((s.reverse.dropWhile (· = c)).reverse).dropWhile (· = c)

/-- Go strings.Split(s, sep) for a one-character separator: cut before every
occurrence, keeping empty fields; the empty input yields one empty field. -/
def splitOnChar (c : Char) (s : List Char) : List (List Char) :=
  match s with
  | [] => [[]]
  | x :: rest =>
    if x = c then [] :: splitOnChar c rest
    else
      match splitOnChar c rest with
      | t :: ts => (x :: t) :: ts
      | [] => [[x]]

/-- splitPath from router.go: strings.Trim(path, sep) for sep the slash, then
an empty result yields no segments, otherwise strings.Split on the slash.
Note that strings.Trim removes every leading and trailing slash, not one. -/
def splitPath (path : String) : List String :=
  let t := trimChar '/' path.data
  if t = [] then [] else (splitOnChar '/' t).map String.mk

/-- Does the segment begin with the given character?  Models Go
strings.HasPrefix(segment, p) for the one-byte prefixes used by the router. -/
def headIs (seg : String) (c : Char) : Bool :=
  seg.data.head? = some c

/-- A radix-tree node, from router.go: a literal path fragment, the ordered
static children slice, at most one parameter child, at most one wildcard
child, the method-to-handler map, and the route-local middleware slice
(handlers and middleware as opaque identifiers). -/
inductive Node where
  | mk (path : String) (children : List Node) (param : Option Node)
       (wildcard : Option Node) (handlers : List (String × Nat)) (mw : List Nat)

def Node.path : Node → String
  | .mk p _ _ _ _ _ => p

def Node.children : Node → List Node
  | .mk _ cs _ _ _ _ => cs

def Node.param : Node → Option Node
  | .mk _ _ pa _ _ _ => pa

def Node.wildcard : Node → Option Node
  | .mk _ _ _ w _ _ => w

def Node.handlers : Node → List (String × Nat)
  | .mk _ _ _ _ hs _ => hs

def Node.mw : Node → List Nat
  | .mk _ _ _ _ _ m => m

/-- A fresh node for a segment, as created by findOrCreateWithConflictCheck. -/
def newNode (seg : String) : Node :=
  .mk seg [] none none [] []

def Node.withChildren : Node → List Node → Node
  | .mk p _ pa w hs m, cs => .mk p cs pa w hs m

def Node.withParam : Node → Node → Node
  | .mk p cs _ w hs m, pa => .mk p cs (some pa) w hs m

def Node.withWildcard : Node → Node → Node
  | .mk p cs pa _ hs m, w => .mk p cs pa (some w) hs m

/-- Write (method to handler) and overwrite the route-local middleware at a
terminal node: the tail of Router.Handle (current.handlers[method] = h;
current.mw = mw).  The middleware slice is stored per node, shared by all
methods of the node. -/
def Node.setTerminal : Node → String → Nat → List Nat → Node
  | .mk p cs pa w hs _, method, h, m => .mk p cs pa w (upsertH hs method h) m

/-- First static child whose path equals the segment, with its index: the
linear scan for child.path == segment shared by registration and lookup. -/
def findFirstIdx (cs : List Node) (seg : String) : Option (Nat × Node) :=
  match cs with
  | [] => none
  | c :: rest =>
    if c.path = seg then some (0, c)
    else (findFirstIdx rest seg).map (fun p => (p.1 + 1, p.2))

/-- First static child whose path equals the segment (lookup scan). -/
def findChild (cs : List Node) (seg : String) : Option Node :=
  (findFirstIdx cs seg).map (·.2)

/-- Router.Handle walking the tree with findOrCreateWithConflictCheck, from
router.go: a wildcard segment reuses an existing wildcard child without any
name check; a parameter segment reuses the parameter child only when the
name matches and otherwise panics (modelled as Except.error; Go formats the
offending full path into the panic message, which the model omits); a static
segment reuses the first child with that exact path or appends a fresh one.
At the end of the walk the handler and middleware are written. -/
def handleNode (parts : List String) (n : Node) (method : String) (h : Nat)
    (mw : List Nat) : Except String Node :=
  match parts with
  | [] => .ok (n.setTerminal method h mw)
  | seg :: rest =>
    if headIs seg '*' then
      match n.wildcard with
      | some w => (handleNode rest w method h mw).map n.withWildcard
      | none => (handleNode rest (newNode seg) method h mw).map n.withWildcard
    else if headIs seg ':' then
      match n.param with
      | some p =>
        if p.path ≠ seg then
          .error ("route conflict: param " ++ seg ++ " conflicts with existing param " ++ p.path)
        else (handleNode rest p method h mw).map n.withParam
      | none => (handleNode rest (newNode seg) method h mw).map n.withParam
    else
      match findFirstIdx n.children seg with
      | some (i, c) =>
        (handleNode rest c method h mw).map (fun c2 => n.withChildren (n.children.set i c2))
      | none =>
        (handleNode rest (newNode seg) method h mw).map (fun c2 => n.withChildren (n.children ++ [c2]))

/-- Result of Router.lookup: the Go triple (Handler, []Middleware, []string)
is always one of handler found, allowed-methods, or nothing; the params map
is threaded through because lookup mutates it. -/
inductive LookupRes where
  | found (h : Nat) (mw : List Nat) (ps : Params)
  | allowed (ms : List String) (ps : Params)
  | notFound (ps : Params)
deriving DecidableEq

/-- The endgame of Router.lookup (router.go lines 380-411): try the method at
the landing node; otherwise, when a wildcard child exists, bind its name to
the empty string and try the wildcard child, falling back to its method set;
otherwise report the landing-node method set when non-empty. -/
def endCheck (cur : Node) (ps : Params) (method : String) : LookupRes :=
  match lookupAssoc cur.handlers method with
  | some h => .found h cur.mw ps
  | none =>
    match cur.wildcard with
    | some w =>
      let ps1 := upsert ps (w.path.drop 1) ""
      match lookupAssoc w.handlers method with
      | some h => .found h w.mw ps1
      | none =>
        if w.handlers.length > 0 then .allowed (w.handlers.map Prod.fst) ps1
        else if cur.handlers.length > 0 then .allowed (cur.handlers.map Prod.fst) ps1
        else .notFound ps1
    | none =>
      if cur.handlers.length > 0 then .allowed (cur.handlers.map Prod.fst) ps
      else .notFound ps

/-- The walking loop of Router.lookup: first static child with an equal path,
else the parameter child (binding its name to the segment), else the wildcard
child (binding its name to the remaining segments joined by the slash and
ending the walk), else no match. -/
def lookupLoop (cur : Node) (parts : List String) (ps : Params) (method : String) : LookupRes :=
  match parts with
  | [] => endCheck cur ps method
  | part :: rest =>
    match findChild cur.children part with
    | some child => lookupLoop child rest ps method
    | none =>
      match cur.param with
      | some p => lookupLoop p rest (upsert ps (p.path.drop 1) part) method
      | none =>
        match cur.wildcard with
        | some w => endCheck w (upsert ps (w.path.drop 1) (String.intercalate "/" (part :: rest))) method
        | none => .notFound ps

/-- TrailingSlashMode from router.go. -/
inductive Ts where
  | ignore
  | redirect
  | strict
deriving DecidableEq

/-- The Router: tree root, global middleware (identifiers), and the
trailing-slash mode.  The not-found handler is a fixed dispatcher branch and
is represented in the serve outcome rather than stored. -/
structure Router where
  root : Node
  middleware : List Nat
  trailingSlash : Ts

/-- NewRouter with the default mode TrailingSlashIgnore. -/
def router0 : Router :=
  { root := .mk "" [] none none [] [], middleware := [], trailingSlash := Ts.ignore }

/-- Router.Handle at the Router level: splitPath then the tree walk. -/
def handleR (rt : Router) (method path : String) (h : Nat) (mw : List Nat) : Except String Router :=
  (handleNode (splitPath path) rt.root method h mw).map (fun r => { rt with root := r })

/-- Register a whole list of routes, stopping at the first conflict panic. -/
def regAll (rt : Router) (rs : List (String × String × Nat × List Nat)) : Option Router :=
  match rs with
  | [] => some rt
  | (m, p, h, mw) :: rest =>
    match handleR rt m p h mw with
    | .ok rt1 => regAll rt1 rest
    | .error _ => none

/-- Go len(path) > 1 combined with strings.HasSuffix(path, sep): the request
path carries a trailing slash and is not the bare root. -/
def hasTrailingSlash (path : String) : Bool :=
  decide (1 < path.length) && (path.data.getLast? = some '/')

/-- strings.TrimSuffix(path, sep) for sep the slash: remove one trailing
slash when present. -/
def trimOneSuffix (path : String) : String :=
  if path.data.getLast? = some '/' then String.mk path.data.dropLast else path

/-- The Go 4-tuple returned by lookupWithTrailingSlash. -/
structure TSOut where
  h : Option Nat
  mw : List Nat
  allowed : List String
  redirect : String
  ps : Params
deriving DecidableEq

/-- lookupWithTrailingSlash from router.go: in Strict mode a trailing slash
(beyond the bare root) is an immediate miss; otherwise the normalized lookup
runs, and in Redirect mode a trailing-slash request that found a handler or
an allowed-method set is turned into a redirect to the trimmed path. -/
def lookupWithTrailingSlash (rt : Router) (method path : String) (ps : Params) : TSOut :=
  let hasTS := hasTrailingSlash path
  if rt.trailingSlash = Ts.strict ∧ hasTS = true then
    ⟨none, [], [], "", ps⟩
  else
    match lookupLoop rt.root (splitPath path) ps method with
    | .found h mw ps1 =>
      if rt.trailingSlash = Ts.redirect ∧ hasTS = true then ⟨none, [], [], trimOneSuffix path, ps1⟩
      else ⟨some h, mw, [], "", ps1⟩
    | .allowed ms ps1 =>
      if ms.length > 0 then
        if rt.trailingSlash = Ts.redirect ∧ hasTS = true then ⟨none, [], [], trimOneSuffix path, ps1⟩
        else ⟨none, [], ms, "", ps1⟩
      else ⟨none, [], [], "", ps1⟩
    | .notFound ps1 => ⟨none, [], [], "", ps1⟩

/-- The observable outcome of one dispatch of App.ServeHTTP: a 301 redirect
with its Location, the registered handler with its route middleware and the
bound parameters, the synthetic 405 handler with the comma-joined Allow
header value, or the not-found handler. -/
inductive ServeOutcome where
  | redirect (loc : String)
  | ok (h : Nat) (mw : List Nat) (ps : Params)
  | mna (allow : String) (ps : Params)
  | notFound (ps : Params)
deriving DecidableEq

/-- App.ServeHTTP branch structure (app.go lines 70-89): the redirect wins
first; then a found handler; then the 405 branch when the allowed set is
non-empty, with the Allow header set to strings.Join(allowed, comma-space);
otherwise the not-found handler.  The params start empty because Ctx.Reset
clears them. -/
def serve (rt : Router) (method path : String) : ServeOutcome :=
  let o := lookupWithTrailingSlash rt method path []
  if o.redirect ≠ "" then .redirect o.redirect
  else
    match o.h with
    | some h => .ok h o.mw o.ps
    | none =>
      if o.allowed.length > 0 then .mna (String.intercalate ", " o.allowed) o.ps
      else .notFound o.ps

/-! ## Declarative route matching and the segment-kind preference order

A registered route corresponds to a walk through the tree: at each consumed
segment the walk goes through a static child (whose literal equals the
segment), through the parameter child, or into the wildcard child, which must
be last and swallows the whole (possibly empty) remaining suffix.  The
preference order static before parameter before wildcard is the
lexicographic order on the kind sequence of the walk. -/

/-- The kind of tree edge a walk takes at one position. -/
inductive Choice where
  | stat
  | par
  | wild
deriving DecidableEq

/-- Preference rank: static 0, parameter 1, wildcard 2. -/
def rank : Choice → Nat
  | .stat => 0
  | .par => 1
  | .wild => 2

/-- Run a walk against the tree on the given request segments.  A static step
consumes one segment through the first child with that literal, a parameter
step consumes one segment through the parameter child, and a wildcard step
must be last and consumes the entire remaining (possibly empty) suffix. -/
def walkRun (n : Node) (w : List Choice) (parts : List String) : Option Node :=
  match n, w, parts with
  | n, [], [] => some n
  | n, [Choice.wild], _ => n.wildcard
  | n, Choice.stat :: w1, s :: rest => (findChild n.children s).bind (fun c => walkRun c w1 rest)
  | n, Choice.par :: w1, _ :: rest => n.param.bind (fun p => walkRun p w1 rest)
  | _, _, _ => none

/-- The walk is a complete match of the request: it consumes all segments and
ends at a node carrying the requested method. -/
def matchesW (n : Node) (w : List Choice) (parts : List String) (method : String) : Bool :=
  match walkRun n w parts with
  | some nd => (lookupAssoc nd.handlers method).isSome
  | none => false

/-- Strict lexicographic order on walks under the preference ranks; a walk
that ends (the route terminates here) precedes any longer walk. -/
def walkLT : List Choice → List Choice → Bool
  | [], [] => false
  | [], _ :: _ => true
  | _ :: _, [] => false
  | a :: xs, b :: ys =>
    if rank a < rank b then true
    else if rank b < rank a then false
    else walkLT xs ys

/-- Lexicographically first-or-equal on walks. -/
def walkLE (w v : List Choice) : Prop := w = v ∨ walkLT w v = true

/-- Depth-bounded check that every wildcard node in the tree is terminal
(no children of any kind), the invariant the specification imposes on
wildcards; the fuel argument only needs to exceed the tree depth. -/
def wildTermD : Nat → Node → Bool
  | 0, _ => false
  | d + 1, n =>
    (n.children.all fun c => wildTermD d c) &&
    (match n.param with
     | some p => wildTermD d p
     | none => true) &&
    (match n.wildcard with
     | some wd => wd.children.isEmpty && wd.param.isNone && wd.wildcard.isNone
     | none => true)

/-! ## Middleware composition -/

/-- Chain from middleware.go: the loop for i from len-1 down to 0 setting
final = mw[i](final) yields mw0 (mw1 (... (mwLast final))). -/
def Chain {α : Type} (mws : List (α → α)) : α → α :=
  fun final => mws.foldr (fun m acc => m acc) final

/-- The composition step of App.ServeHTTP (app.go lines 91-99): wrap the
resolved handler with the route-local middleware when present, then with the
global middleware when present.  In the not-found and method-not-allowed
branches ServeHTTP reaches this step with an empty route-middleware list and
the synthetic or configured fallback handler as the base. -/
def composedHandler {α : Type} (global route : List (α → α)) (h : α) : α :=
  let h1 := if route.length > 0 then Chain route h else h
  if global.length > 0 then Chain global h1 else h1

/-- Handlers as trace transformers: a handler receives the event trace so far
and returns the extended trace.  This instantiates the opaque Go Handler type
to make before/after call order observable. -/
abbrev TraceH := List String → List String

/-- A middleware that logs a before event, calls next, then logs an after
event: the observable shape of a wrapping Go middleware. -/
def mkMw (nm : String) : TraceH → TraceH :=
  fun next t => next (t ++ [nm ++ ".before"]) ++ [nm ++ ".after"]

/-- The terminal handler, logging a single event. -/
def baseH : TraceH := fun t => t ++ ["h"]

/-! ## Go slice semantics for the Group middleware lists

group.go composes middleware with append(g.middleware, mw...), which reuses
the backing array of g.middleware whenever spare capacity is available.  The
heap holds backing arrays at full capacity (cells beyond a slice length are
junk); a slice is an array index plus a length (every slice built by the
group code starts at offset 0).  goAppend models Go append for these slices:
no-op on an empty addition, in-place write when the needed length fits the
capacity, otherwise a fresh array with the doubled-or-needed capacity (the
exact Go growth for the small element counts exercised here). -/

abbrev Heap := List (List Nat)

/-- A Go slice header over the heap: backing array index and length. -/
structure Slice where
  arr : Nat
  len : Nat
deriving DecidableEq

/-- The elements a slice denotes. -/
def readSlice (hp : Heap) (s : Slice) : List Nat :=
  (hp.getD s.arr []).take s.len

/-- Overwrite array cells starting at an index. -/
def writeAt (a : List Nat) (i : Nat) (xs : List Nat) : List Nat :=
  a.take i ++ xs ++ a.drop (i + xs.length)

/-- Go append(s, xs...) on the heap. -/
def goAppend (hp : Heap) (s : Slice) (xs : List Nat) : Heap × Slice :=
  if xs.isEmpty then (hp, s)
  else
    let arr := hp.getD s.arr []
    let need := s.len + xs.length
    if need ≤ arr.length then
      (hp.set s.arr (writeAt arr s.len xs), ⟨s.arr, need⟩)
    else
      let newCap := max (2 * arr.length) need
      (hp ++ [arr.take s.len ++ xs ++ List.replicate (newCap - need) 0], ⟨hp.length, need⟩)

/-- A group together with the router registry it forwards to: the group
middleware slice (group.go) and, per registered path, the slice the router
stored as the route-local middleware (router.go, current.mw = mw). -/
structure GState where
  heap : Heap
  gmw : Slice
  routes : List (String × Slice)

/-- A fresh group with no middleware (nil slice over an empty backing). -/
def gInit : GState := ⟨[[]], ⟨0, 0⟩, []⟩

/-- Group.Use: g.middleware = append(g.middleware, mw...). -/
def groupUse (st : GState) (mws : List Nat) : GState :=
  let r := goAppend st.heap st.gmw mws
  ⟨r.1, r.2, st.routes⟩

/-- Group.Handle: combined := append(g.middleware, mw...), forwarded to the
router, which stores the combined slice as the route-local middleware of the
registered node. -/
def groupHandle (st : GState) (path : String) (extra : List Nat) : GState :=
  let r := goAppend st.heap st.gmw extra
  ⟨r.1, st.gmw, st.routes ++ [(path, r.2)]⟩

/-- The stored route-middleware slice of a registered path. -/
def findRoute : List (String × Slice) → String → Option Slice
  | [], _ => none
  | (p0, s) :: rest, p => if p0 = p then some s else findRoute rest p

/-- The middleware list a route dispatches with, read through the heap. -/
def routeMwAt (st : GState) (p : String) : Option (List Nat) :=
  (findRoute st.routes p).map (readSlice st.heap)

/-- Three Use calls leave the group middleware slice with length 3 over a
capacity-4 backing array (Go growth 0, 1, 2, 4). -/
def gA : GState := groupUse (groupUse (groupUse gInit [1]) [2]) [3]

/-- Register route /a with one extra middleware: the combined slice fits the
spare capacity and aliases the group backing array. -/
def gB : GState := groupHandle gA "/a" [101]

/-- Register route /b afterwards with a different extra middleware. -/
def gC : GState := groupHandle gB "/b" [102]

/-- Instead: install one more group middleware after registering /a. -/
def gD : GState := groupUse gB [4]

/-! ## Concrete routers for the claims -/

/-- GET /users registered once. -/
def r2demo : Router := (regAll router0 [("GET", "/users", 1, [])]).getD router0

/-- GET then POST registered at the same path with distinct route-local
middleware lists. -/
def r3demo : Router := (regAll router0 [("GET", "/p", 1, [10]), ("POST", "/p", 2, [20])]).getD router0

/-- GET /users/me before GET /users/:id. -/
def r4a : Router := (regAll router0 [("GET", "/users/me", 1, []), ("GET", "/users/:id", 2, [])]).getD router0

/-- GET /users/:id before GET /users/me. -/
def r4b : Router := (regAll router0 [("GET", "/users/:id", 2, []), ("GET", "/users/me", 1, [])]).getD router0

/-- GET /a/b next to GET /:x/c: the static branch shadows /:x/c for the
request path /a/c. -/
def r4shadow : Router := (regAll router0 [("GET", "/a/b", 1, []), ("GET", "/:x/c", 2, [])]).getD router0

/-- GET /files/*a followed by PUT /files/*b, a wildcard-name mismatch. -/
def r5opt : Option Router := regAll router0 [("GET", "/files/*a", 1, []), ("PUT", "/files/*b", 2, [])]

def r5demo : Router := r5opt.getD router0

/-- POST then GET registered at /r, nothing else. -/
def r6demo : Router := (regAll router0 [("POST", "/r", 1, []), ("GET", "/r", 2, [])]).getD router0

/-- GET /files/*p with handler id 7. -/
def r7demo : Router := (regAll router0 [("GET", "/files/*p", 7, [])]).getD router0

/-- GET /x under the Redirect trailing-slash mode. -/
def r8redirect : Router :=
  { (regAll router0 [("GET", "/x", 3, [])]).getD router0 with trailingSlash := Ts.redirect }

/-- GET /x under the Strict trailing-slash mode. -/
def r8strict : Router :=
  { (regAll router0 [("GET", "/x", 3, [])]).getD router0 with trailingSlash := Ts.strict }

/-- The tree after registering GET /users/:id on an empty router. -/
def r10node : Node :=
  (handleNode ["users", ":id"] router0.root "GET" 1 []).toOption.getD router0.root

/-- The router after registering GET /p with middleware [10]. -/
def c3r1 : Router := (handleR router0 "GET" "/p" 1 [10]).toOption.getD router0

/-- c3r1 after additionally registering POST /p with middleware [20]. -/
def c3r2 : Router := (handleR c3r1 "POST" "/p" 2 [20]).toOption.getD router0

/-- A wildcard node named a, carrying a GET handler. -/
def c5wa : Node := Node.mk "*a" [] none none [("GET", 1)] []

/-- A files node that already has the wildcard child named a. -/
def c5files : Node := Node.mk "files" [] none (some c5wa) [] []

/-! ## Basic lemmas about the embedded operations -/

@[simp] theorem path_withChildren (n : Node) (cs : List Node) : (n.withChildren cs).path = n.path := by
  cases n; rfl

@[simp] theorem children_withChildren (n : Node) (cs : List Node) : (n.withChildren cs).children = cs := by
  cases n; rfl

@[simp] theorem param_withChildren (n : Node) (cs : List Node) : (n.withChildren cs).param = n.param := by
  cases n; rfl

@[simp] theorem wildcard_withChildren (n : Node) (cs : List Node) : (n.withChildren cs).wildcard = n.wildcard := by
  cases n; rfl

@[simp] theorem handlers_withChildren (n : Node) (cs : List Node) : (n.withChildren cs).handlers = n.handlers := by
  cases n; rfl

@[simp] theorem mw_withChildren (n : Node) (cs : List Node) : (n.withChildren cs).mw = n.mw := by
  cases n; rfl

@[simp] theorem path_withParam (n p : Node) : (n.withParam p).path = n.path := by
  cases n; rfl

@[simp] theorem param_withParam (n p : Node) : (n.withParam p).param = some p := by
  cases n; rfl

@[simp] theorem path_withWildcard (n w : Node) : (n.withWildcard w).path = n.path := by
  cases n; rfl

@[simp] theorem wildcard_withWildcard (n w : Node) : (n.withWildcard w).wildcard = some w := by
  cases n; rfl

@[simp] theorem path_setTerminal (n : Node) (m : String) (h : Nat) (mw : List Nat) :
    (n.setTerminal m h mw).path = n.path := by
  cases n; rfl

@[simp] theorem handlers_setTerminal (n : Node) (m : String) (h : Nat) (mw : List Nat) :
    (n.setTerminal m h mw).handlers = upsertH n.handlers m h := by
  cases n; rfl

@[simp] theorem mw_setTerminal (n : Node) (m : String) (h : Nat) (mw : List Nat) :
    (n.setTerminal m h mw).mw = mw := by
  cases n; rfl

@[simp] theorem path_newNode (seg : String) : (newNode seg).path = seg := rfl

/-- A map write makes the key readable. -/
theorem lookupAssoc_upsertH_self (hs : List (String × Nat)) (k : String) (v : Nat) :
    lookupAssoc (upsertH hs k v) k = some v := by
  induction hs with
  | nil => simp [upsertH, lookupAssoc]
  | cons kv rest ih =>
    obtain ⟨k0, v0⟩ := kv
    by_cases hk : k0 = k
    · simp [upsertH, hk, lookupAssoc]
    · simp [upsertH, hk, lookupAssoc, ih]

/-- A map write leaves other keys untouched. -/
theorem lookupAssoc_upsertH_other (hs : List (String × Nat)) (k k2 : String) (v : Nat)
    (hne : k ≠ k2) : lookupAssoc (upsertH hs k v) k2 = lookupAssoc hs k2 := by
  induction hs with
  | nil => simp [upsertH, lookupAssoc, hne]
  | cons kv rest ih =>
    obtain ⟨k0, v0⟩ := kv
    by_cases hk : k0 = k
    · subst hk
      simp [upsertH, lookupAssoc, hne]
    · simp [upsertH, hk, lookupAssoc, ih]

/-- The static scan only returns children whose path is the segment. -/
theorem findFirstIdx_path : ∀ (cs : List Node) (seg : String) (i : Nat) (c : Node),
    findFirstIdx cs seg = some (i, c) → c.path = seg := by
  intro cs seg
  induction cs with
  | nil => intro i c h; simp [findFirstIdx] at h
  | cons c0 rest ih =>
    intro i c h
    by_cases h0 : c0.path = seg
    · simp only [findFirstIdx, if_pos h0, Option.some.injEq, Prod.mk.injEq] at h
      rw [← h.2]
      exact h0
    · simp only [findFirstIdx, if_neg h0, Option.map_eq_some'] at h
      obtain ⟨p, hp, hEq⟩ := h
      have : c = p.2 := by
        have := congrArg Prod.snd hEq
        simpa using this.symm
      rw [this]
      exact ih p.1 p.2 (by rw [← hp])

/-- Replacing the found child in place (same path) is found again at the same
position. -/
theorem findFirstIdx_set : ∀ (cs : List Node) (seg : String) (i : Nat) (c c2 : Node),
    findFirstIdx cs seg = some (i, c) → c2.path = c.path →
    findFirstIdx (cs.set i c2) seg = some (i, c2) := by
  intro cs seg
  induction cs with
  | nil => intro i c c2 h _; simp [findFirstIdx] at h
  | cons c0 rest ih =>
    intro i c c2 h hp
    by_cases h0 : c0.path = seg
    · simp only [findFirstIdx, if_pos h0, Option.some.injEq, Prod.mk.injEq] at h
      rw [← h.1, List.set_cons_zero]
      have : c2.path = seg := by rw [hp, ← h.2]; exact h0
      simp [findFirstIdx, this]
    · simp only [findFirstIdx, if_neg h0, Option.map_eq_some'] at h
      obtain ⟨p, hrest, hEq⟩ := h
      have hi : i = p.1 + 1 := by
        have := congrArg Prod.fst hEq
        simpa using this.symm
      have hc : c = p.2 := by
        have := congrArg Prod.snd hEq
        simpa using this.symm
      subst hi
      rw [List.set_cons_succ]
      have := ih p.1 p.2 c2 (by rw [← hrest]) (by rw [hp, hc])
      simp [findFirstIdx, h0, this]

/-- When no child matches, the appended fresh child is found at the end. -/
theorem findFirstIdx_append : ∀ (cs : List Node) (seg : String) (c2 : Node),
    findFirstIdx cs seg = none → c2.path = seg →
    findFirstIdx (cs ++ [c2]) seg = some (cs.length, c2) := by
  intro cs seg
  induction cs with
  | nil => intro c2 _ hp; simp [findFirstIdx, hp]
  | cons c0 rest ih =>
    intro c2 h hp
    by_cases h0 : c0.path = seg
    · simp [findFirstIdx, h0] at h
    · simp only [findFirstIdx, if_neg h0, Option.map_eq_none'] at h
      have := ih c2 h hp
      simp [findFirstIdx, h0, this, List.cons_append]

/-- The found child is a member of the children list. -/
theorem findFirstIdx_mem : ∀ (cs : List Node) (seg : String) (i : Nat) (c : Node),
    findFirstIdx cs seg = some (i, c) → c ∈ cs := by
  intro cs seg
  induction cs with
  | nil => intro i c h; simp [findFirstIdx] at h
  | cons c0 rest ih =>
    intro i c h
    by_cases h0 : c0.path = seg
    · simp only [findFirstIdx, if_pos h0, Option.some.injEq, Prod.mk.injEq] at h
      rw [← h.2]
      exact List.mem_cons_self c0 rest
    · simp only [findFirstIdx, if_neg h0, Option.map_eq_some'] at h
      obtain ⟨p, hrest, hEq⟩ := h
      have hc : c = p.2 := by
        have := congrArg Prod.snd hEq
        simpa using this.symm
      rw [hc]
      exact List.mem_cons_of_mem c0 (ih p.1 p.2 (by rw [← hrest]))

/-- Inverting Except.map on a success. -/
theorem exceptMap_ok {β γ : Type} {e : Except String β} {f : β → γ} {g : γ}
    (h : e.map f = .ok g) : ∃ v, e = .ok v ∧ g = f v := by
  cases e with
  | error msg => simp [Except.map] at h
  | ok v => exact ⟨v, rfl, by simpa [Except.map] using h.symm⟩

/-- Mapping over an Except preserves success and failure. -/
theorem isOk_map {β γ : Type} (e : Except String β) (f : β → γ) : (e.map f).isOk = e.isOk := by
  cases e <;> rfl

/-- Registration never changes the literal path of the node it starts from. -/
theorem handleNode_path : ∀ (parts : List String) (n : Node) (m : String) (h : Nat)
    (mw : List Nat) (n2 : Node), handleNode parts n m h mw = .ok n2 → n2.path = n.path := by
  intro parts
  induction parts with
  | nil =>
    intro n m h mw n2 H
    simp only [handleNode, Except.ok.injEq] at H
    rw [← H]
    simp
  | cons seg rest ih =>
    intro n m h mw n2 H
    simp only [handleNode] at H
    by_cases hw : headIs seg '*' = true
    · rw [if_pos hw] at H
      cases hnw : n.wildcard with
      | some w =>
        rw [hnw] at H
        obtain ⟨v, _, hg⟩ := exceptMap_ok H
        rw [hg]; simp
      | none =>
        rw [hnw] at H
        obtain ⟨v, _, hg⟩ := exceptMap_ok H
        rw [hg]; simp
    · rw [if_neg hw] at H
      by_cases hp : headIs seg ':' = true
      · rw [if_pos hp] at H
        cases hnp : n.param with
        | some p =>
          rw [hnp] at H
          dsimp only at H
          by_cases hpe : p.path ≠ seg
          · rw [if_pos hpe] at H
            simp at H
          · rw [if_neg hpe] at H
            obtain ⟨v, _, hg⟩ := exceptMap_ok H
            rw [hg]; simp
        | none =>
          rw [hnp] at H
          obtain ⟨v, _, hg⟩ := exceptMap_ok H
          rw [hg]; simp
      · rw [if_neg hp] at H
        cases hfi : findFirstIdx n.children seg with
        | some ic =>
          rw [hfi] at H
          obtain ⟨v, _, hg⟩ := exceptMap_ok H
          rw [hg]; simp
        | none =>
          rw [hfi] at H
          obtain ⟨v, _, hg⟩ := exceptMap_ok H
          rw [hg]; simp

/-! ## Path normalization lemmas -/

/-- Trimming absorbs a trailing occurrence of the trimmed character. -/
theorem trimChar_concat (c : Char) (xs : List Char) : trimChar c (xs ++ [c]) = trimChar c xs := by
  simp [trimChar, List.dropWhile_cons]

/-- Trimming absorbs a leading occurrence of the trimmed character. -/
theorem trimChar_cons (c : Char) (xs : List Char) : trimChar c (c :: xs) = trimChar c xs := by
  simp only [trimChar, List.reverse_cons, List.dropWhile_append]
  by_cases he : (List.dropWhile (fun x => decide (x = c)) xs.reverse).isEmpty = true
  · rw [if_pos he, List.isEmpty_iff.mp he]
    simp [List.dropWhile_cons]
  · rw [if_neg he, List.reverse_append]
    simp [List.dropWhile_cons]

/-- splitPath ignores one more leading slash. -/
theorem splitPath_slash_front (s : String) : splitPath ("/" ++ s) = splitPath s := by
  have : ("/" ++ s).data = '/' :: s.data := by simp [String.data_append]
  simp [splitPath, this, trimChar_cons]

/-- splitPath ignores one more trailing slash. -/
theorem splitPath_slash_suffix (s : String) : splitPath (s ++ "/") = splitPath s := by
  have : (s ++ "/").data = s.data ++ ['/'] := by simp [String.data_append]
  simp [splitPath, this, trimChar_concat]

/-- A non-empty string has a non-empty character list. -/
theorem data_ne_nil (x : String) (hx : x ≠ "") : x.data ≠ [] :=
  fun h => hx (String.ext (by rw [h]))

/-- Appending a slash to a non-empty path produces a trailing slash beyond
the bare root. -/
theorem hasTrailingSlash_concat (x : String) (hx : x ≠ "") : hasTrailingSlash (x ++ "/") = true := by
  have hd : (x ++ "/").data = x.data ++ ['/'] := by simp [String.data_append]
  have hlen : (x ++ "/").length = x.length + 1 := by rw [String.length_append]; rfl
  have hpos : 0 < x.length := List.length_pos.mpr (data_ne_nil x hx)
  simp [hasTrailingSlash, hd, hlen, List.getLast?_concat]
  omega

/-- TrimSuffix removes exactly the one appended slash. -/
theorem trimOneSuffix_concat (x : String) : trimOneSuffix (x ++ "/") = x := by
  have hd : (x ++ "/").data = x.data ++ ['/'] := by simp [String.data_append]
  simp [trimOneSuffix, hd, List.getLast?_concat, List.dropLast_concat]

/-! ## Claim C2: path tokenization of repeated slashes -/

/-- C2 counterexample.  The claim says the tokenizer strips exactly one
leading and one trailing slash, so that "//users" tokenizes to the segments
["", "users"] and fails to match a route registered as /users.  In the code
splitPath calls strings.Trim, which strips every leading and trailing slash:
"//users" tokenizes to ["users"] and the request does reach the /users
handler. -/
theorem c2_counterexample :
    splitPath "//users" ≠ ["", "users"] ∧ splitPath "//users" = ["users"] ∧
      serve r2demo "GET" "//users" = .ok 1 [] [] := by
  refine ⟨by decide, by decide, by decide⟩

/-- C2 amended.  The tokenizer strips all leading and all trailing slashes
before splitting: adding a slash at either end never changes the token list,
"//users" tokenizes to ["users"], and a request for "//users" does match a
route registered as /users. -/
theorem c2_amended :
    (∀ s : String, splitPath ("/" ++ s) = splitPath s) ∧
      (∀ s : String, splitPath (s ++ "/") = splitPath s) ∧
      splitPath "//users" = ["users"] ∧
      serve r2demo "GET" "//users" = .ok 1 [] [] :=
  ⟨splitPath_slash_front, splitPath_slash_suffix, by decide, by decide⟩

/-! ## Claim C8: trailing-slash modes -/

/-- C8.  Under Ignore a trailing slash never changes the dispatch outcome;
under Strict any request path with a trailing slash beyond the bare root is
dispatched as not-found; under Redirect a trailing-slash request whose
trimmed path finds a handler yields exactly the 301 outcome with the trimmed
path as Location, and no handler runs. -/
theorem c8_trailing_slash_modes :
    (∀ (rt : Router) (m s : String), rt.trailingSlash = Ts.ignore →
      serve rt m (s ++ "/") = serve rt m s) ∧
    (∀ (rt : Router) (m p : String), rt.trailingSlash = Ts.strict →
      hasTrailingSlash p = true → serve rt m p = .notFound []) ∧
    (∀ (rt : Router) (m x : String) (h : Nat) (mw : List Nat) (ps1 : Params),
      rt.trailingSlash = Ts.redirect → x ≠ "" →
      lookupLoop rt.root (splitPath x) [] m = .found h mw ps1 →
      serve rt m (x ++ "/") = .redirect x) := by
  refine ⟨?_, ?_, ?_⟩
  · intro rt m s hmode
    simp only [serve, lookupWithTrailingSlash, hmode, splitPath_slash_suffix]
    cases hres : lookupLoop rt.root (splitPath s) [] m <;> simp
  · intro rt m p hmode hts
    simp [serve, lookupWithTrailingSlash, hmode, hts]
  · intro rt m x h mw ps1 hmode hx hres
    have hts := hasTrailingSlash_concat x hx
    have htrim := trimOneSuffix_concat x
    simp only [serve, lookupWithTrailingSlash, hmode, splitPath_slash_suffix, hres, hts, htrim]
    simp [hx]

/-- C8 witness: the three mode statements at the concrete router with GET /x
registered. -/
theorem c8_witness :
    serve r8redirect "GET" ("/x" ++ "/") = .redirect "/x" ∧
      serve r8strict "GET" "/x/" = .notFound [] ∧
      serve ({ r2demo with trailingSlash := Ts.ignore }) "GET" ("/users" ++ "/") =
        serve ({ r2demo with trailingSlash := Ts.ignore }) "GET" "/users" :=
  ⟨c8_trailing_slash_modes.2.2 r8redirect "GET" "/x" 3 [] [] (by decide) (by decide) (by decide),
   c8_trailing_slash_modes.2.1 r8strict "GET" "/x/" (by decide) (by decide),
   c8_trailing_slash_modes.1 _ "GET" "/users" (by decide)⟩

/-! ## Claim C1: group middleware aliasing -/

/-- C1.  The specification mandates that Group.Handle forward a fresh
middleware list, so that later group mutations and later registrations can
never change the list stored for an earlier route.  The code composes with
Go append over the group slice, which reuses its backing array whenever
spare capacity exists.  After three Use calls the group slice has length 3
over a capacity-4 array; registering /a with one extra middleware (id 101)
stores a slice aliasing that array, and then either registering /b with
extra middleware 102, or calling Use with middleware 4, overwrites the
fourth cell: the middleware list stored for /a silently changes from
[1, 2, 3, 101] to [1, 2, 3, 102] respectively [1, 2, 3, 4]. -/
theorem c1_group_alias_bug :
    routeMwAt gB "/a" = some [1, 2, 3, 101] ∧
      routeMwAt gC "/a" = some [1, 2, 3, 102] ∧
      routeMwAt gC "/b" = some [1, 2, 3, 102] ∧
      routeMwAt gD "/a" = some [1, 2, 3, 4] := by
  refine ⟨by decide, by decide, by decide, by decide⟩

/-! ## Registration unfolding helpers -/

/-- handleNode at a static segment. -/
theorem handleNode_static (seg : String) (rest : List String) (n : Node) (m : String)
    (h : Nat) (mw : List Nat) (h1 : headIs seg '*' = false) (h2 : headIs seg ':' = false) :
    handleNode (seg :: rest) n m h mw =
      match findFirstIdx n.children seg with
      | some ic => (handleNode rest ic.2 m h mw).map (fun c2 => n.withChildren (n.children.set ic.1 c2))
      | none => (handleNode rest (newNode seg) m h mw).map (fun c2 => n.withChildren (n.children ++ [c2])) := by
  simp only [handleNode, h1, h2, Bool.false_eq_true, if_false]
  cases hf : findFirstIdx n.children seg with
  | some ic => rfl
  | none => rfl

/-- handleNode at a parameter segment. -/
theorem handleNode_param (seg : String) (rest : List String) (n : Node) (m : String)
    (h : Nat) (mw : List Nat) (h1 : headIs seg '*' = false) (h2 : headIs seg ':' = true) :
    handleNode (seg :: rest) n m h mw =
      match n.param with
      | some p =>
        if p.path ≠ seg then
          .error ("route conflict: param " ++ seg ++ " conflicts with existing param " ++ p.path)
        else (handleNode rest p m h mw).map n.withParam
      | none => (handleNode rest (newNode seg) m h mw).map n.withParam := by
  simp only [handleNode, h1, h2, Bool.false_eq_true, if_false, if_true]

/-- handleNode at a wildcard segment. -/
theorem handleNode_wild (seg : String) (rest : List String) (n : Node) (m : String)
    (h : Nat) (mw : List Nat) (h1 : headIs seg '*' = true) :
    handleNode (seg :: rest) n m h mw =
      match n.wildcard with
      | some w => (handleNode rest w m h mw).map n.withWildcard
      | none => (handleNode rest (newNode seg) m h mw).map n.withWildcard := by
  simp only [handleNode, h1, if_true]

/-! ## Claim C3: middleware is stored per node, not per (node, method) -/

/-- Registering twice at the same all-static path and then looking up the
first method finds the first handler together with the middleware of the
second registration: the handler map is per (node, method), the middleware
slot is per node and last-write-wins. -/
theorem handle_twice_static_lookup :
    ∀ (parts : List String) (n : Node) (A B : String) (hA hB : Nat)
      (mwA mwB : List Nat) (ps : Params) (n1 n2 : Node),
      A ≠ B →
      (∀ s ∈ parts, headIs s ':' = false ∧ headIs s '*' = false) →
      handleNode parts n A hA mwA = .ok n1 →
      handleNode parts n1 B hB mwB = .ok n2 →
      lookupLoop n2 parts ps A = .found hA mwB ps := by
  intro parts
  induction parts with
  | nil =>
    intro n A B hA hB mwA mwB ps n1 n2 hAB _ H1 H2
    simp only [handleNode, Except.ok.injEq] at H1 H2
    rw [← H2, ← H1]
    have hBA : B ≠ A := fun hh => hAB hh.symm
    simp [lookupLoop, endCheck, lookupAssoc_upsertH_other _ B A hB hBA, lookupAssoc_upsertH_self]
  | cons seg rest ih =>
    intro n A B hA hB mwA mwB ps n1 n2 hAB hstat H1 H2
    have hseg := hstat seg (List.mem_cons_self _ _)
    have hrest : ∀ s ∈ rest, headIs s ':' = false ∧ headIs s '*' = false :=
      fun s hs => hstat s (List.mem_cons_of_mem _ hs)
    rw [handleNode_static seg rest n A hA mwA hseg.2 hseg.1] at H1
    rw [handleNode_static seg rest n1 B hB mwB hseg.2 hseg.1] at H2
    cases hf : findFirstIdx n.children seg with
    | some ic =>
      obtain ⟨i, c⟩ := ic
      rw [hf] at H1
      obtain ⟨c1, hc1, hn1⟩ := exceptMap_ok H1
      have hcp : c.path = seg := findFirstIdx_path _ _ _ _ hf
      have hc1p : c1.path = seg := (handleNode_path _ _ _ _ _ _ hc1).trans hcp
      have hf1 : findFirstIdx n1.children seg = some (i, c1) := by
        rw [hn1, children_withChildren]
        exact findFirstIdx_set _ _ _ _ _ hf (hc1p.trans hcp.symm)
      rw [hf1] at H2
      obtain ⟨c2, hc2, hn2⟩ := exceptMap_ok H2
      have hc2p : c2.path = seg := (handleNode_path _ _ _ _ _ _ hc2).trans hc1p
      have hf2 : findFirstIdx n2.children seg = some (i, c2) := by
        rw [hn2, children_withChildren]
        exact findFirstIdx_set _ _ _ _ _ hf1 (hc2p.trans hc1p.symm)
      simp only [lookupLoop, findChild, hf2, Option.map_some']
      exact ih c A B hA hB mwA mwB ps c1 c2 hAB hrest hc1 hc2
    | none =>
      rw [hf] at H1
      obtain ⟨c1, hc1, hn1⟩ := exceptMap_ok H1
      have hc1p : c1.path = seg := (handleNode_path _ _ _ _ _ _ hc1).trans (path_newNode seg)
      have hf1 : findFirstIdx n1.children seg = some (n.children.length, c1) := by
        rw [hn1, children_withChildren]
        exact findFirstIdx_append _ _ _ hf hc1p
      rw [hf1] at H2
      obtain ⟨c2, hc2, hn2⟩ := exceptMap_ok H2
      have hc2p : c2.path = seg := (handleNode_path _ _ _ _ _ _ hc2).trans hc1p
      have hf2 : findFirstIdx n2.children seg = some (n.children.length, c2) := by
        rw [hn2, children_withChildren]
        exact findFirstIdx_set _ _ _ _ _ hf1 (hc2p.trans hc1p.symm)
      simp only [lookupLoop, findChild, hf2, Option.map_some']
      exact ih (newNode seg) A B hA hB mwA mwB ps c1 c2 hAB hrest hc1 hc2

/-- C3 counterexample.  The claim says a second registration at the same path
with a different method leaves the first method with its own route-local
middleware list.  Registering GET /p with middleware [10] and then POST /p
with middleware [20], the GET lookup returns handler 1 but middleware [20]:
the per-node middleware slot was overwritten. -/
theorem c3_counterexample :
    lookupLoop r3demo.root (splitPath "/p") [] "GET" = .found 1 [20] [] ∧
      ([20] : List Nat) ≠ [10] := by
  refine ⟨by decide, by decide⟩

/-- C3 amended.  Handler bindings are per (node, method): after registering
method A and then method B at the same all-static path, looking up A still
finds the handler registered for A.  The route-local middleware list however
is stored once per node, so the lookup for A returns the middleware of the
second (latest) registration, not the list given when A was registered. -/
theorem c3_amended :
    ∀ (p : String) (rt rt1 rt2 : Router) (A B : String) (hA hB : Nat)
      (mwA mwB : List Nat),
      A ≠ B →
      (∀ s ∈ splitPath p, headIs s ':' = false ∧ headIs s '*' = false) →
      handleR rt A p hA mwA = .ok rt1 →
      handleR rt1 B p hB mwB = .ok rt2 →
      lookupLoop rt2.root (splitPath p) [] A = .found hA mwB [] := by
  intro p rt rt1 rt2 A B hA hB mwA mwB hAB hstat H1 H2
  obtain ⟨r1, hr1, he1⟩ := exceptMap_ok H1
  obtain ⟨r2, hr2, he2⟩ := exceptMap_ok H2
  have hroot1 : rt1.root = r1 := by rw [he1]
  have hroot2 : rt2.root = r2 := by rw [he2]
  rw [hroot1] at hr2
  rw [hroot2]
  exact handle_twice_static_lookup (splitPath p) rt.root A B hA hB mwA mwB [] r1 r2 hAB hstat hr1 hr2

/-- C3 witness: the amended statement at the concrete two-method router. -/
theorem c3_witness : lookupLoop c3r2.root (splitPath "/p") [] "GET" = .found 1 [20] [] :=
  c3_amended "/p" router0 c3r1 c3r2 "GET" "POST" 1 2 [10] [20]
    (by decide) (by decide) (by rfl) (by rfl)

/-! ## Claim C5: wildcard name mismatch at registration -/

/-- C5 amended.  Registering a route whose final segment is a wildcard at a
node that already has a wildcard child with a different name does not fail:
findOrCreateWithConflictCheck reuses the existing wildcard child with no name
check, the handler is written onto that node, and the node keeps its
original wildcard name (so lookups bind the original name, not the new
one). -/
theorem c5_amended :
    ∀ (n w : Node) (seg m : String) (h : Nat) (mw : List Nat),
      headIs seg '*' = true → n.wildcard = some w →
      handleNode [seg] n m h mw = .ok (n.withWildcard (w.setTerminal m h mw)) ∧
        (n.withWildcard (w.setTerminal m h mw)).wildcard = some (w.setTerminal m h mw) ∧
        (w.setTerminal m h mw).path = w.path := by
  intro n w seg m h mw hseg hw
  refine ⟨?_, by simp, by simp⟩
  rw [handleNode_wild seg [] n m h mw hseg, hw]
  rfl

/-- C5 counterexample.  The claim says the second registration is rejected.
Registering GET /files/*a then PUT /files/*b succeeds, and the PUT request
is served by the reused wildcard node, binding the original name a. -/
theorem c5_counterexample :
    r5opt.isSome = true ∧ serve r5demo "PUT" "/files/x" = .ok 2 [] [("a", "x")] := by
  refine ⟨by decide, by decide⟩

/-- C5 witness: the amended statement at a concrete node with wildcard child
named a receiving a registration for wildcard name b. -/
theorem c5_witness :
    handleNode ["*b"] c5files "PUT" 2 [] =
        .ok (c5files.withWildcard (c5wa.setTerminal "PUT" 2 [])) ∧
      (c5files.withWildcard (c5wa.setTerminal "PUT" 2 [])).wildcard =
        some (c5wa.setTerminal "PUT" 2 []) ∧
      (c5wa.setTerminal "PUT" 2 []).path = c5wa.path :=
  c5_amended c5files c5wa "*b" "PUT" 2 [] (by decide) (by rfl)

/-! ## Claim C6: the 405 branch and its Allow header -/

/-- endCheck only reports a non-empty allowed-method list. -/
theorem endCheck_allowed_ne_nil (n : Node) (ps : Params) (m : String) (ms : List String)
    (ps1 : Params) (H : endCheck n ps m = .allowed ms ps1) : ms ≠ [] := by
  unfold endCheck at H
  cases h1 : lookupAssoc n.handlers m with
  | some h => rw [h1] at H; simp at H
  | none =>
    rw [h1] at H
    cases h2 : n.wildcard with
    | some w =>
      rw [h2] at H
      dsimp only at H
      cases h3 : lookupAssoc w.handlers m with
      | some h => rw [h3] at H; simp at H
      | none =>
        rw [h3] at H
        by_cases h4 : w.handlers.length > 0
        · rw [if_pos h4] at H
          simp only [LookupRes.allowed.injEq] at H
          rw [← H.1]
          intro hc
          rw [List.map_eq_nil_iff] at hc
          rw [hc] at h4
          simp at h4
        · rw [if_neg h4] at H
          by_cases h5 : n.handlers.length > 0
          · rw [if_pos h5] at H
            simp only [LookupRes.allowed.injEq] at H
            rw [← H.1]
            intro hc
            rw [List.map_eq_nil_iff] at hc
            rw [hc] at h5
            simp at h5
          · rw [if_neg h5] at H
            simp at H
    | none =>
      rw [h2] at H
      dsimp only at H
      by_cases h5 : n.handlers.length > 0
      · rw [if_pos h5] at H
        simp only [LookupRes.allowed.injEq] at H
        rw [← H.1]
        intro hc
        rw [List.map_eq_nil_iff] at hc
        rw [hc] at h5
        simp at h5
      · rw [if_neg h5] at H
        simp at H

/-- The walking loop only reports a non-empty allowed-method list. -/
theorem lookupLoop_allowed_ne_nil :
    ∀ (parts : List String) (n : Node) (ps : Params) (m : String) (ms : List String)
      (ps1 : Params), lookupLoop n parts ps m = .allowed ms ps1 → ms ≠ [] := by
  intro parts
  induction parts with
  | nil =>
    intro n ps m ms ps1 H
    exact endCheck_allowed_ne_nil n ps m ms ps1 H
  | cons part rest ih =>
    intro n ps m ms ps1 H
    simp only [lookupLoop] at H
    cases h1 : findChild n.children part with
    | some child =>
      rw [h1] at H
      exact ih child ps m ms ps1 H
    | none =>
      rw [h1] at H
      cases h2 : n.param with
      | some p =>
        rw [h2] at H
        exact ih p _ m ms ps1 H
      | none =>
        rw [h2] at H
        dsimp only at H
        cases h3 : n.wildcard with
        | some w =>
          rw [h3] at H
          exact endCheck_allowed_ne_nil w _ m ms ps1 H
        | none =>
          rw [h3] at H
          simp at H

/-- C6 amended.  When the walk reports an allowed-method set for a request
path without a trailing slash, the dispatcher responds with the synthetic
405 handler (status 405, body Method Not Allowed) and the Allow header is
the comma-joined allowed list exactly as lookup reported it, in map
iteration order (modelled as registration order), not sorted.  At the
concrete router with POST then GET registered at /r, a DELETE request gets
Allow set to "POST, GET", exactly the methods of the landing node. -/
theorem c6_amended :
    (∀ (rt : Router) (m p : String) (ms : List String) (ps1 : Params),
      hasTrailingSlash p = false →
      lookupLoop rt.root (splitPath p) [] m = .allowed ms ps1 →
      serve rt m p = .mna (String.intercalate ", " ms) ps1) ∧
      serve r6demo "DELETE" "/r" = .mna "POST, GET" [] := by
  constructor
  · intro rt m p ms ps1 hts H
    have hne : ms ≠ [] := lookupLoop_allowed_ne_nil _ _ _ _ _ _ H
    have hlen : ms.length > 0 := List.length_pos.mpr hne
    simp [serve, lookupWithTrailingSlash, hts, H, hlen]
  · decide

/-- C6 counterexample.  The claim says the Allow header is the sorted
comma-joined method list; with POST registered before GET, the header is
"POST, GET" while the sorted join is "GET, POST". -/
theorem c6_counterexample :
    serve r6demo "DELETE" "/r" = .mna "POST, GET" [] ∧ ("POST, GET" : String) ≠ "GET, POST" := by
  refine ⟨by decide, by decide⟩

/-- C6 witness: the amended statement applied at the concrete router. -/
theorem c6_witness :
    serve r6demo "DELETE" "/r" = .mna (String.intercalate ", " ["POST", "GET"]) [] :=
  c6_amended.1 r6demo "DELETE" "/r" ["POST", "GET"] [] (by decide) (by decide)

/-! ## Claim C7: wildcard suffix capture and the empty-suffix fallback -/

/-- C7.  With GET /files/*p registered: any request whose first segment is
files and which has at least one further segment reaches handler 7 with p
bound to the remaining segments joined by slashes; the request
/files/a/b/c.txt binds p to a/b/c.txt; and the request /files/ lands on the
files node, finds no GET there, and the empty-suffix wildcard fallback
serves handler 7 with p bound to the empty string. -/
theorem c7_wildcard_capture :
    (∀ (s : String) (ss : List String),
      lookupLoop r7demo.root ("files" :: s :: ss) [] "GET" =
        .found 7 [] [("p", String.intercalate "/" (s :: ss))]) ∧
      serve r7demo "GET" "/files/a/b/c.txt" = .ok 7 [] [("p", "a/b/c.txt")] ∧
      serve r7demo "GET" "/files/" = .ok 7 [] [("p", "")] := by
  refine ⟨fun s ss => rfl, by decide, by decide⟩

/-! ## Claim C9: middleware composition and call order -/

/-- Chain peels middleware from the front. -/
theorem chain_cons {α : Type} (m : α → α) (ms : List (α → α)) (final : α) :
    Chain (m :: ms) final = m (Chain ms final) := rfl

/-- Chain of no middleware is the identity. -/
theorem chain_nil {α : Type} (final : α) : Chain ([] : List (α → α)) final = final := rfl

/-- The guarded composition of ServeHTTP equals the unguarded nesting of the
two chains. -/
theorem composedHandler_eq {α : Type} (g r : List (α → α)) (h : α) :
    composedHandler g r h = Chain g (Chain r h) := by
  cases g <;> cases r <;> simp [composedHandler, Chain]

/-- Running a chain of logging middleware prepends all before events in list
order and appends all after events in reverse order. -/
theorem chain_trace : ∀ (ns : List String) (f : TraceH) (t : List String),
    Chain (ns.map mkMw) f t =
      f (t ++ ns.map (fun s => s ++ ".before")) ++ ns.reverse.map (fun s => s ++ ".after") := by
  intro ns
  induction ns with
  | nil => intro f t; simp [Chain]
  | cons n ns ih =>
    intro f t
    rw [List.map_cons, chain_cons, mkMw]
    rw [ih f (t ++ [n ++ ".before"])]
    simp [List.append_assoc]

/-- C9.  Chain(mw1,...,mwn)(final) is the nesting mw1(mw2(...mwn(final))),
dispatch composes the route middleware inside the global middleware
(composedHandler is the faithful translation of app.go lines 91-99, where
the not-found and method-not-allowed branches arrive with an empty route
list, so the global chain also brackets those handlers), and for logging
middleware the observable call order is g1.before ... gm.before, r1.before
... rk.before, h, rk.after ... r1.after, gm.after ... g1.after. -/
theorem c9_middleware_order :
    (∀ (α : Type) (m : α → α) (ms : List (α → α)) (final : α),
      Chain (m :: ms) final = m (Chain ms final) ∧ Chain ([] : List (α → α)) final = final) ∧
      (∀ (α : Type) (g r : List (α → α)) (h : α), composedHandler g r h = Chain g (Chain r h)) ∧
      (∀ (gs rs : List String),
        composedHandler (gs.map mkMw) (rs.map mkMw) baseH [] =
          gs.map (fun s => s ++ ".before") ++ rs.map (fun s => s ++ ".before") ++ ["h"] ++
            rs.reverse.map (fun s => s ++ ".after") ++ gs.reverse.map (fun s => s ++ ".after")) ∧
      (∀ (α : Type) (g : List (α → α)) (h : α), composedHandler g [] h = Chain g h) := by
  refine ⟨fun α m ms final => ⟨chain_cons m ms final, chain_nil final⟩,
    fun α g r h => composedHandler_eq g r h, ?_,
    fun α g h => by rw [composedHandler_eq, chain_nil]⟩
  intro gs rs
  rw [composedHandler_eq, chain_trace gs (Chain (rs.map mkMw) baseH) [],
    chain_trace rs baseH, baseH]
  simp [List.append_assoc]

/-! ## Claim C10: parameter-name conflicts fail at registration -/

/-- A segment starting with the colon does not start with the asterisk. -/
theorem headIs_colon_not_star (s : String) (h : headIs s ':' = true) : headIs s '*' = false := by
  cases hd : s.data with
  | nil => simp [headIs, hd] at h
  | cons a as =>
    simp [headIs, hd] at h
    simp [headIs, hd, h]

/-- C10.  After a successful registration of a route whose segments are a
prefix, then a parameter segment s1, then anything, any registration of a
route with the same prefix and a parameter segment s2 with a different name
at the same position fails (findOrCreateWithConflictCheck panics, modelled
as Except.error): the registration call aborts before any handler is
written, so nothing is installed for the second route.  The fault is raised
inside Handle, at registration time. -/
theorem c10_param_conflict :
    ∀ (pre : List String) (n : Node) (s1 s2 : String) (suf1 suf2 : List String)
      (m1 m2 : String) (h1 h2 : Nat) (mw1 mw2 : List Nat) (n1 : Node),
      headIs s1 ':' = true → headIs s2 ':' = true → s1 ≠ s2 →
      handleNode (pre ++ s1 :: suf1) n m1 h1 mw1 = .ok n1 →
      (handleNode (pre ++ s2 :: suf2) n1 m2 h2 mw2).isOk = false := by
  intro pre
  induction pre with
  | nil =>
    intro n s1 s2 suf1 suf2 m1 m2 h1 h2 mw1 mw2 n1 hs1 hs2 hne H1
    rw [List.nil_append] at H1
    rw [handleNode_param s1 suf1 n m1 h1 mw1 (headIs_colon_not_star s1 hs1) hs1] at H1
    have secondFails : ∀ p1 : Node, p1.path = s1 → n1 = n.withParam p1 →
        (handleNode ([] ++ s2 :: suf2) n1 m2 h2 mw2).isOk = false := by
      intro p1 hp1 hn1
      rw [List.nil_append,
        handleNode_param s2 suf2 n1 m2 h2 mw2 (headIs_colon_not_star s2 hs2) hs2]
      rw [hn1, param_withParam]
      dsimp only
      rw [if_pos (by rw [hp1]; exact hne)]
      rfl
    cases hp : n.param with
    | some p =>
      rw [hp] at H1
      dsimp only at H1
      by_cases hpe : p.path ≠ s1
      · rw [if_pos hpe] at H1; simp at H1
      · rw [if_neg hpe] at H1
        obtain ⟨p1, hrec, hn1⟩ := exceptMap_ok H1
        exact secondFails p1
          ((handleNode_path _ _ _ _ _ _ hrec).trans (not_ne_iff.mp hpe)) hn1
    | none =>
      rw [hp] at H1
      dsimp only at H1
      obtain ⟨p1, hrec, hn1⟩ := exceptMap_ok H1
      exact secondFails p1
        ((handleNode_path _ _ _ _ _ _ hrec).trans (path_newNode s1)) hn1
  | cons x pre ih =>
    intro n s1 s2 suf1 suf2 m1 m2 h1 h2 mw1 mw2 n1 hs1 hs2 hne H1
    rw [List.cons_append] at H1
    by_cases hxw : headIs x '*' = true
    · rw [handleNode_wild x _ n m1 h1 mw1 hxw] at H1
      cases hw : n.wildcard with
      | some w =>
        rw [hw] at H1
        obtain ⟨w1, hrec, hn1⟩ := exceptMap_ok H1
        rw [List.cons_append, handleNode_wild x _ n1 m2 h2 mw2 hxw, hn1, wildcard_withWildcard]
        rw [isOk_map]
        exact ih w s1 s2 suf1 suf2 m1 m2 h1 h2 mw1 mw2 w1 hs1 hs2 hne hrec
      | none =>
        rw [hw] at H1
        obtain ⟨w1, hrec, hn1⟩ := exceptMap_ok H1
        rw [List.cons_append, handleNode_wild x _ n1 m2 h2 mw2 hxw, hn1, wildcard_withWildcard]
        rw [isOk_map]
        exact ih (newNode x) s1 s2 suf1 suf2 m1 m2 h1 h2 mw1 mw2 w1 hs1 hs2 hne hrec
    · have hxwf : headIs x '*' = false := by simpa using hxw
      by_cases hxp : headIs x ':' = true
      · rw [handleNode_param x _ n m1 h1 mw1 hxwf hxp] at H1
        cases hp : n.param with
        | some p =>
          rw [hp] at H1
          dsimp only at H1
          by_cases hpe : p.path ≠ x
          · rw [if_pos hpe] at H1; simp at H1
          · rw [if_neg hpe] at H1
            obtain ⟨p1, hrec, hn1⟩ := exceptMap_ok H1
            have hp1 : p1.path = x :=
              (handleNode_path _ _ _ _ _ _ hrec).trans (not_ne_iff.mp hpe)
            rw [List.cons_append, handleNode_param x _ n1 m2 h2 mw2 hxwf hxp, hn1,
              param_withParam]
            dsimp only
            rw [if_neg (not_ne_iff.mpr hp1)]
            rw [isOk_map]
            exact ih p s1 s2 suf1 suf2 m1 m2 h1 h2 mw1 mw2 p1 hs1 hs2 hne hrec
        | none =>
          rw [hp] at H1
          dsimp only at H1
          obtain ⟨p1, hrec, hn1⟩ := exceptMap_ok H1
          have hp1 : p1.path = x :=
            (handleNode_path _ _ _ _ _ _ hrec).trans (path_newNode x)
          rw [List.cons_append, handleNode_param x _ n1 m2 h2 mw2 hxwf hxp, hn1,
            param_withParam]
          dsimp only
          rw [if_neg (not_ne_iff.mpr hp1)]
          rw [isOk_map]
          exact ih (newNode x) s1 s2 suf1 suf2 m1 m2 h1 h2 mw1 mw2 p1 hs1 hs2 hne hrec
      · have hxc : headIs x ':' = false := by simpa using hxp
        rw [handleNode_static x _ n m1 h1 mw1 hxwf hxc] at H1
        cases hf : findFirstIdx n.children x with
        | some ic =>
          obtain ⟨i, c⟩ := ic
          rw [hf] at H1
          dsimp only at H1
          obtain ⟨c1, hrec, hn1⟩ := exceptMap_ok H1
          have hcp : c.path = x := findFirstIdx_path _ _ _ _ hf
          have hc1p : c1.path = x := (handleNode_path _ _ _ _ _ _ hrec).trans hcp
          have hf1 : findFirstIdx n1.children x = some (i, c1) := by
            rw [hn1, children_withChildren]
            exact findFirstIdx_set _ _ _ _ _ hf (hc1p.trans hcp.symm)
          rw [List.cons_append, handleNode_static x _ n1 m2 h2 mw2 hxwf hxc, hf1]
          dsimp only
          rw [isOk_map]
          exact ih c s1 s2 suf1 suf2 m1 m2 h1 h2 mw1 mw2 c1 hs1 hs2 hne hrec
        | none =>
          rw [hf] at H1
          dsimp only at H1
          obtain ⟨c1, hrec, hn1⟩ := exceptMap_ok H1
          have hc1p : c1.path = x := (handleNode_path _ _ _ _ _ _ hrec).trans (path_newNode x)
          have hf1 : findFirstIdx n1.children x = some (n.children.length, c1) := by
            rw [hn1, children_withChildren]
            exact findFirstIdx_append _ _ _ hf hc1p
          rw [List.cons_append, handleNode_static x _ n1 m2 h2 mw2 hxwf hxc, hf1]
          dsimp only
          rw [isOk_map]
          exact ih (newNode x) s1 s2 suf1 suf2 m1 m2 h1 h2 mw1 mw2 c1 hs1 hs2 hne hrec

/-- C10 witness: GET /users/:id registers fine, then GET /users/:name is
rejected. -/
theorem c10_witness :
    handleNode (["users"] ++ [":id"]) router0.root "GET" 1 [] = .ok r10node ∧
      (handleNode (["users"] ++ [":name"]) r10node "GET" 2 []).isOk = false :=
  ⟨by rfl,
   c10_param_conflict ["users"] router0.root ":id" ":name" [] [] "GET" "GET" 1 2 [] [] r10node
     (by decide) (by decide) (by decide) (by rfl)⟩

/-! ## Claim C4: the preference order of the matcher -/

/-- Equation: the empty walk only matches the empty request. -/
theorem walkRun_nil_cons (n : Node) (part : String) (rest : List String) :
    walkRun n [] (part :: rest) = none := rfl

/-- Equation: a static step. -/
theorem walkRun_stat (n : Node) (v : List Choice) (part : String) (rest : List String) :
    walkRun n (Choice.stat :: v) (part :: rest) =
      (findChild n.children part).bind (fun c => walkRun c v rest) := by
  cases v <;> rfl

/-- Equation: a parameter step. -/
theorem walkRun_par (n : Node) (v : List Choice) (part : String) (rest : List String) :
    walkRun n (Choice.par :: v) (part :: rest) = n.param.bind (fun p => walkRun p v rest) := by
  cases v <;> rfl

/-- Equation: a terminal wildcard step swallows any remaining suffix. -/
theorem walkRun_wild (n : Node) (parts : List String) :
    walkRun n [Choice.wild] parts = n.wildcard := by
  cases parts <;> rfl

/-- Equation: a non-terminal wildcard step never matches. -/
theorem walkRun_wild_cons (n : Node) (c2 : Choice) (t : List Choice) (parts : List String) :
    walkRun n (Choice.wild :: c2 :: t) parts = none := by
  cases parts <;> rfl

/-- A static step after exhausting the request never matches. -/
theorem walkRun_stat_nil (n : Node) (v : List Choice) :
    walkRun n (Choice.stat :: v) [] = none := by
  cases v <;> rfl

/-- A parameter step after exhausting the request never matches. -/
theorem walkRun_par_nil (n : Node) (v : List Choice) :
    walkRun n (Choice.par :: v) [] = none := by
  cases v <;> rfl

/-- A walk that matches the exhausted request is empty or one terminal
wildcard. -/
theorem walkRun_nil_inv (n : Node) (v : List Choice) (nd : Node)
    (h : walkRun n v [] = some nd) : v = [] ∨ v = [Choice.wild] := by
  rcases v with _ | ⟨c, v⟩
  · exact Or.inl rfl
  · cases c with
    | stat => rw [walkRun_stat_nil] at h; simp at h
    | par => rw [walkRun_par_nil] at h; simp at h
    | wild =>
      rcases v with _ | ⟨c2, v2⟩
      · exact Or.inr rfl
      · rw [walkRun_wild_cons] at h; simp at h

/-- Inversion of a found endgame: either the landing node carries the method,
or it does not and its wildcard child does (the empty-suffix fallback). -/
theorem endCheck_found_inv (cur : Node) (ps : Params) (m : String) (h : Nat)
    (mw : List Nat) (ps1 : Params) (H : endCheck cur ps m = .found h mw ps1) :
    (lookupAssoc cur.handlers m = some h ∧ mw = cur.mw) ∨
      (lookupAssoc cur.handlers m = none ∧
        ∃ wd, cur.wildcard = some wd ∧ lookupAssoc wd.handlers m = some h ∧ mw = wd.mw) := by
  unfold endCheck at H
  cases h1 : lookupAssoc cur.handlers m with
  | some h0 =>
    rw [h1] at H
    simp only [LookupRes.found.injEq] at H
    exact Or.inl ⟨congrArg some H.1, H.2.1.symm⟩
  | none =>
    rw [h1] at H
    cases h2 : cur.wildcard with
    | some wd =>
      rw [h2] at H
      dsimp only at H
      cases h3 : lookupAssoc wd.handlers m with
      | some h0 =>
        rw [h3] at H
        simp only [LookupRes.found.injEq] at H
        exact Or.inr ⟨rfl, wd, rfl, h3.trans (congrArg some H.1), H.2.1.symm⟩
      | none =>
        rw [h3] at H
        by_cases h4 : wd.handlers.length > 0
        · rw [if_pos h4] at H; simp at H
        · rw [if_neg h4] at H
          by_cases h5 : cur.handlers.length > 0
          · rw [if_pos h5] at H; simp at H
          · rw [if_neg h5] at H; simp at H
    | none =>
      rw [h2] at H
      dsimp only at H
      by_cases h5 : cur.handlers.length > 0
      · rw [if_pos h5] at H; simp at H
      · rw [if_neg h5] at H; simp at H

/-- The lexicographic order is reflexive-or-below under a common head. -/
theorem walkLE_cons_same (c : Choice) (w v : List Choice) (h : walkLE w v) :
    walkLE (c :: w) (c :: v) := by
  rcases h with h | h
  · exact Or.inl (by rw [h])
  · right
    simp [walkLT, h]

/-- A strictly smaller head decides the lexicographic order. -/
theorem walkLT_cons_lt {a b : Choice} (h : rank a < rank b) (w v : List Choice) :
    walkLT (a :: w) (b :: v) = true := by
  simp [walkLT, h]

/-- Wildcard terminality descends to static children. -/
theorem wildTermD_child (d : Nat) (n c : Node) (h : wildTermD (d + 1) n = true)
    (hc : c ∈ n.children) : wildTermD d c = true := by
  simp only [wildTermD, Bool.and_eq_true, List.all_eq_true] at h
  exact h.1.1 c hc

/-- Wildcard terminality descends to the parameter child. -/
theorem wildTermD_param (d : Nat) (n p : Node) (h : wildTermD (d + 1) n = true)
    (hp : n.param = some p) : wildTermD d p = true := by
  simp only [wildTermD, Bool.and_eq_true, List.all_eq_true] at h
  have := h.1.2
  rw [hp] at this
  exact this

/-- A wildcard child of a wildcard-terminal tree has no children of any
kind. -/
theorem wildTermD_wild (d : Nat) (n wd : Node) (h : wildTermD (d + 1) n = true)
    (hw : n.wildcard = some wd) :
    wd.children = [] ∧ wd.param = none ∧ wd.wildcard = none := by
  simp only [wildTermD, Bool.and_eq_true, List.all_eq_true] at h
  have := h.2
  rw [hw] at this
  simp only [Bool.and_eq_true] at this
  exact ⟨List.isEmpty_iff.mp this.1.1, Option.isNone_iff_eq_none.mp this.1.2,
    Option.isNone_iff_eq_none.mp this.2⟩

/-- The matcher is greedy and its selections are lexicographically first:
whenever the walking loop returns a handler, there is a walk of the tree
realising it, and that walk is first, under the order static before
parameter before wildcard applied segment by segment, among all walks that
match the request path with the requested method.  The tree is assumed
wildcard-terminal (the invariant of section 3 of the specification) to some
depth d. -/
theorem lookup_found_lex_min :
    ∀ (parts : List String) (n : Node) (d : Nat) (ps : Params) (m : String)
      (h : Nat) (mw : List Nat) (ps1 : Params),
      wildTermD d n = true →
      lookupLoop n parts ps m = .found h mw ps1 →
      ∃ w nd, walkRun n w parts = some nd ∧ lookupAssoc nd.handlers m = some h ∧
        nd.mw = mw ∧ ∀ v, matchesW n v parts m = true → walkLE w v := by
  intro parts
  induction parts with
  | nil =>
    intro n d ps m h mw ps1 hwf H
    simp only [lookupLoop] at H
    rcases endCheck_found_inv n ps m h mw ps1 H with ⟨hdir, hmw⟩ | ⟨hnone, wd, hw, hwd, hmw⟩
    · refine ⟨[], n, rfl, hdir, hmw.symm, ?_⟩
      intro v hv
      have hrun : ∃ nd0, walkRun n v [] = some nd0 := by
        unfold matchesW at hv
        cases hr : walkRun n v [] with
        | some nd0 => exact ⟨nd0, rfl⟩
        | none => rw [hr] at hv; simp at hv
      obtain ⟨nd0, hr⟩ := hrun
      rcases walkRun_nil_inv n v nd0 hr with h1 | h1
      · exact Or.inl h1.symm
      · right; rw [h1]; rfl
    · refine ⟨[Choice.wild], wd, by rw [walkRun_wild, hw], hwd, hmw.symm, ?_⟩
      intro v hv
      have hrun : ∃ nd0, walkRun n v [] = some nd0 := by
        unfold matchesW at hv
        cases hr : walkRun n v [] with
        | some nd0 => exact ⟨nd0, rfl⟩
        | none => rw [hr] at hv; simp at hv
      obtain ⟨nd0, hr⟩ := hrun
      rcases walkRun_nil_inv n v nd0 hr with h1 | h1
      · exfalso
        rw [h1] at hv
        have hmE : matchesW n [] ([] : List String) m = (lookupAssoc n.handlers m).isSome := rfl
        rw [hmE, hnone] at hv
        simp at hv
      · exact Or.inl h1.symm
  | cons part rest ih =>
    intro n d ps m h mw ps1 hwf H
    simp only [lookupLoop] at H
    cases hf : findChild n.children part with
    | some child =>
      rw [hf] at H
      cases d with
      | zero => simp [wildTermD] at hwf
      | succ d =>
        have hmem : child ∈ n.children := by
          unfold findChild at hf
          obtain ⟨p, hp1, hp2⟩ := Option.map_eq_some'.mp hf
          rw [← hp2]
          exact findFirstIdx_mem _ _ p.1 p.2 (by rw [hp1])
        obtain ⟨w, nd, hwr, hnd, hmwnd, hmin⟩ :=
          ih child d ps m h mw ps1 (wildTermD_child d n child hwf hmem) H
        refine ⟨Choice.stat :: w, nd, by rw [walkRun_stat, hf]; exact hwr, hnd, hmwnd, ?_⟩
        intro v hv
        rcases v with _ | ⟨c, v⟩
        · exfalso; unfold matchesW at hv; rw [walkRun_nil_cons] at hv; simp at hv
        · cases c with
          | stat =>
            have hv2 : matchesW child v rest m = true := by
              unfold matchesW at hv ⊢
              rw [walkRun_stat, hf] at hv
              exact hv
            exact walkLE_cons_same _ _ _ (hmin v hv2)
          | par => exact Or.inr (walkLT_cons_lt (by decide) w v)
          | wild =>
            rcases v with _ | ⟨c2, v2⟩
            · exact Or.inr (walkLT_cons_lt (by decide) w [])
            · exfalso; unfold matchesW at hv; rw [walkRun_wild_cons] at hv; simp at hv
    | none =>
      rw [hf] at H
      cases hp : n.param with
      | some p =>
        rw [hp] at H
        cases d with
        | zero => simp [wildTermD] at hwf
        | succ d =>
          obtain ⟨w, nd, hwr, hnd, hmwnd, hmin⟩ :=
            ih p d _ m h mw ps1 (wildTermD_param d n p hwf hp) H
          refine ⟨Choice.par :: w, nd, by rw [walkRun_par, hp]; exact hwr, hnd, hmwnd, ?_⟩
          intro v hv
          rcases v with _ | ⟨c, v⟩
          · exfalso; unfold matchesW at hv; rw [walkRun_nil_cons] at hv; simp at hv
          · cases c with
            | stat =>
              exfalso
              unfold matchesW at hv
              rw [walkRun_stat, hf] at hv
              simp at hv
            | par =>
              have hv2 : matchesW p v rest m = true := by
                unfold matchesW at hv ⊢
                rw [walkRun_par, hp] at hv
                exact hv
              exact walkLE_cons_same _ _ _ (hmin v hv2)
            | wild =>
              rcases v with _ | ⟨c2, v2⟩
              · exact Or.inr (walkLT_cons_lt (by decide) w [])
              · exfalso; unfold matchesW at hv; rw [walkRun_wild_cons] at hv; simp at hv
      | none =>
        rw [hp] at H
        cases hw : n.wildcard with
        | some wd =>
          rw [hw] at H
          dsimp only at H
          rcases endCheck_found_inv wd _ m h mw ps1 H with ⟨hdir, hmw⟩ | ⟨hnone, wd2, hww, hwd2, hmw⟩
          · refine ⟨[Choice.wild], wd, by rw [walkRun_wild, hw], hdir, hmw.symm, ?_⟩
            intro v hv
            rcases v with _ | ⟨c, v⟩
            · exfalso; unfold matchesW at hv; rw [walkRun_nil_cons] at hv; simp at hv
            · cases c with
              | stat =>
                exfalso; unfold matchesW at hv; rw [walkRun_stat, hf] at hv; simp at hv
              | par =>
                exfalso; unfold matchesW at hv; rw [walkRun_par, hp] at hv; simp at hv
              | wild =>
                rcases v with _ | ⟨c2, v2⟩
                · exact Or.inl rfl
                · exfalso; unfold matchesW at hv; rw [walkRun_wild_cons] at hv; simp at hv
          · exfalso
            cases d with
            | zero => simp [wildTermD] at hwf
            | succ d =>
              have h3 := wildTermD_wild d n wd hwf hw
              rw [h3.2.2] at hww
              simp at hww
        | none =>
          rw [hw] at H
          simp at H

/-- C4 counterexample.  The claim quantifies over every request path matched
by some registered route.  With GET /a/b and GET /:x/c registered, the path
/a/c is matched by the route /:x/c (the walk parameter-then-static reaches
its handler), yet the matcher selects nothing: the greedy walk enters the
preferred static child a, dead-ends, and does not backtrack, so lookup
reports not-found rather than the lexicographically first matching route. -/
theorem c4_counterexample :
    matchesW r4shadow.root [Choice.par, Choice.stat] ["a", "c"] "GET" = true ∧
      lookupLoop r4shadow.root ["a", "c"] [] "GET" = .notFound [] := by
  refine ⟨by decide, by decide⟩

/-- C4 amended.  Whenever the matcher does select a route, the selection is
the lexicographically first, under static before parameter before wildcard
segment by segment, among all tree walks matching the request path with the
requested method (for wildcard-terminal trees); but a request path matched
by some registered route can still go unmatched when the greedy walk
dead-ends in a preferred branch, since there is no backtracking.  In
particular, with GET /users/me and GET /users/:id registered in either
order, /users/me reaches the static handler and /users/99 the parameter
handler. -/
theorem c4_amended :
    (∀ (parts : List String) (n : Node) (d : Nat) (ps : Params) (m : String)
      (h : Nat) (mw : List Nat) (ps1 : Params),
      wildTermD d n = true →
      lookupLoop n parts ps m = .found h mw ps1 →
      ∃ w nd, walkRun n w parts = some nd ∧ lookupAssoc nd.handlers m = some h ∧
        nd.mw = mw ∧ ∀ v, matchesW n v parts m = true → walkLE w v) ∧
      serve r4a "GET" "/users/me" = .ok 1 [] [] ∧
      serve r4a "GET" "/users/99" = .ok 2 [] [("id", "99")] ∧
      serve r4b "GET" "/users/me" = .ok 1 [] [] ∧
      serve r4b "GET" "/users/99" = .ok 2 [] [("id", "99")] :=
  ⟨lookup_found_lex_min, by decide, by decide, by decide, by decide⟩

/-- C4 witness: the minimality statement instantiated at the concrete router
with GET /users/me and GET /users/:id, on the request /users/me. -/
theorem c4_witness :
    ∃ w nd, walkRun r4a.root w ["users", "me"] = some nd ∧
      lookupAssoc nd.handlers "GET" = some 1 ∧ nd.mw = [] ∧
      ∀ v, matchesW r4a.root v ["users", "me"] "GET" = true → walkLE w v :=
  c4_amended.1 ["users", "me"] r4a.root 5 [] "GET" 1 [] [] (by decide) (by decide)

end Marten
